import Mathlib

/-!
Verification development for the binary transaction encoding and signing
subsystem of the piston library (files `steembase/transactions.py` and
`steembase/operations.py`).  Python functions are embedded as executable
Lean definitions; machine integers become `Nat`/`Int` with explicit
reductions modulo 2^w where the Python `struct` module packs fixed-width
values; fallible constructors become `Option`/`Except`.
-/

set_option maxRecDepth 100000

namespace Piston

/-! ### Byte-level primitives (from `steembase/transactions.py`) -/

/-- One step of varint encoding; the fuel argument dominates the number of
7-bit groups, so `fuel = n + 1` always suffices. -/
def varintAux : Nat → Nat → List Nat
  | 0, n => [n % 256]
  | fuel + 1, n =>
      if n ≥ 0x80 then ((n % 0x80) + 0x80) :: varintAux fuel (n >>> 7)
      else [n]

/-- `varint(n)`: 7 bits per byte, continuation bit on all but the last byte
(`transactions.py`, `varint`). -/
def varint (n : Nat) : List Nat := varintAux (n + 1) n

/-- `struct.pack("<H", n)`: little-endian `uint16`.  `struct.pack` raises for
out-of-range input; in-range values are unchanged by the reduction mod 2^16. -/
def u16LE (n : Nat) : List Nat := [n % 256, (n / 256) % 256]

/-- `struct.pack("<I", n)`: little-endian `uint32`. -/
def u32LE (n : Nat) : List Nat :=
  [n % 256, (n / 256) % 256, (n / 65536) % 256, (n / 16777216) % 256]

/-- `struct.pack("<h", w)`: little-endian signed `int16` (two's complement). -/
def i16LE (w : Int) : List Nat :=
  let m := (w % 65536).toNat
  [m % 256, m / 256]

/-- `struct.pack("<q", w)`: little-endian signed `int64` (two's complement).
`struct.pack` raises when `w` is outside `[-2^63, 2^63)`; this helper is the
in-range byte image (range checking is done at the call sites that model it). -/
def i64LE (w : Int) : List Nat :=
  let m := (w % 18446744073709551616).toNat
  [m % 256, (m / 256) % 256, (m / 65536) % 256, (m / 16777216) % 256,
   (m / 4294967296) % 256, (m / 1099511627776) % 256,
   (m / 281474976710656) % 256, (m / 72057594037927936) % 256]

/-- UTF-8 encoding of one unicode code point (Python `bytes(s, 'utf-8')`). -/
def utf8Char (c : Char) : List Nat :=
  let n := c.toNat
  if n < 0x80 then [n]
  else if n < 0x800 then [0xC0 + n / 64, 0x80 + n % 64]
  else if n < 0x10000 then
    [0xE0 + n / 4096, 0x80 + (n / 64) % 64, 0x80 + n % 64]
  else
    [0xF0 + n / 262144, 0x80 + (n / 4096) % 64, 0x80 + (n / 64) % 64,
     0x80 + n % 64]

/-- UTF-8 bytes of a whole string. -/
def utf8Bytes (s : String) : List Nat := (s.data.map utf8Char).flatten

/-- `String.__bytes__`: `varint(len(self.data)) + bytes(self.data, 'utf-8')`.
Note the length prefix counts Python characters, not UTF-8 bytes, exactly as
in the source (the two coincide for ASCII data). -/
def strBytes (s : String) : List Nat := varint s.length ++ utf8Bytes s

/-- `Array.__bytes__` (and `Set.__bytes__`, `Set = Array` in the source):
varint element count followed by the concatenated element encodings. -/
def arrayBytes (l : List (List Nat)) : List Nat := varint l.length ++ l.flatten

/-! ### Hex encoding / decoding (`binascii.hexlify` / `unhexlify`) -/

def hexDigitChar (n : Nat) : Char :=
  if n < 10 then Char.ofNat (48 + n) else Char.ofNat (87 + n)

/-- `hexlify(bytes).decode('ascii')`: lowercase hex string of a byte list. -/
def hexEncode (l : List Nat) : String :=
  String.mk (l.map (fun b => [hexDigitChar (b / 16), hexDigitChar (b % 16)])).flatten

def hexDigitVal (c : Char) : Option Nat :=
  if 48 ≤ c.toNat ∧ c.toNat ≤ 57 then some (c.toNat - 48)
  else if 97 ≤ c.toNat ∧ c.toNat ≤ 102 then some (c.toNat - 87)
  else if 65 ≤ c.toNat ∧ c.toNat ≤ 70 then some (c.toNat - 55)
  else none

def hexDecodeList : List Char → Option (List Nat)
  | [] => some []
  | [_] => none
  | hi :: lo :: rest => do
      let h ← hexDigitVal hi
      let l ← hexDigitVal lo
      let r ← hexDecodeList rest
      pure ((h * 16 + l) :: r)

/-- `unhexlify(s)`: bytes from an even-length hex string. -/
def hexDecode (s : String) : Option (List Nat) := hexDecodeList s.data

/-! ### `PointInTime` (`time.strptime` with format `%Y-%m-%dT%H:%M:%S%Z`
followed by `calendar.timegm`) -/

/-- Days from the civil date to the Unix epoch 1970-01-01 (the standard
era-based count; valid for the Gregorian dates ≥ 1970 that the library
handles, where the subtraction below cannot underflow). -/
def daysFromCivil (y m d : Nat) : Nat :=
  let y' := if m ≤ 2 then y - 1 else y
  let era := y' / 400
  let yoe := y' % 400
  let doy := (153 * (if m > 2 then m - 3 else m + 9) + 2) / 5 + (d - 1)
  let doe := yoe * 365 + yoe / 4 - yoe / 100 + doy
  era * 146097 + doe - 719468

/-- `calendar.timegm` over the parsed `struct_time` fields. -/
def timegm (y mo d h mi s : Nat) : Nat :=
  daysFromCivil y mo d * 86400 + h * 3600 + mi * 60 + s

def digitVal (c : Char) : Option Nat :=
  if 48 ≤ c.toNat ∧ c.toNat ≤ 57 then some (c.toNat - 48) else none

def twoDigits (a b : Char) : Option Nat := do
  let x ← digitVal a
  let y ← digitVal b
  pure (x * 10 + y)

/-- `time.strptime(data + "UTC", '%Y-%m-%dT%H:%M:%S%Z')` followed by
`timegm`: parse of the fixed `YYYY-MM-DDTHH:MM:SS` layout (with the range
checks `strptime` performs on each field) to epoch seconds. -/
def parsePointInTime (s : String) : Option Nat :=
  match s.data with
  | [y1, y2, y3, y4, '-', m1, m2, '-', d1, d2, 'T',
     h1, h2, ':', i1, i2, ':', s1, s2] => do
      let yh ← twoDigits y1 y2
      let yl ← twoDigits y3 y4
      let mo ← twoDigits m1 m2
      let d ← twoDigits d1 d2
      let h ← twoDigits h1 h2
      let mi ← twoDigits i1 i2
      let sec ← twoDigits s1 s2
      if 1 ≤ mo ∧ mo ≤ 12 ∧ 1 ≤ d ∧ d ≤ 31 ∧ h ≤ 23 ∧ mi ≤ 59 ∧ sec ≤ 61 then
        pure (timegm (yh * 100 + yl) mo d h mi sec)
      else none
  | _ => none

/-- `PointInTime.__bytes__`: `struct.pack("<I", timegm(strptime(...)))`. -/
def pointInTimeBytes (s : String) : Option (List Nat) :=
  (parsePointInTime s).map u32LE

/-! ### The operation id table (`transactions.py`, `operations`) -/

/-- The module-level `operations` dict, in insertion order. -/
def operationsTable : List (String × Nat) :=
  [("vote", 0), ("comment", 1), ("transfer", 2), ("transfer_to_vesting", 3),
   ("withdraw_vesting", 4), ("limit_order_create", 5), ("limit_order_cancel", 6),
   ("feed_publish", 7), ("convert", 8), ("account_create", 9),
   ("account_update", 10), ("witness_update", 11), ("account_witness_vote", 12),
   ("account_witness_proxy", 13), ("pow", 14), ("custom", 15),
   ("report_over_production", 16), ("fill_convert_request", 17),
   ("comment_reward", 18), ("curate_reward", 19), ("liquidity_reward", 20),
   ("interest", 21), ("fill_vesting_withdraw", 22), ("fill_order", 23)]

/-- `getOperationNameForId(i)` (`transactions.py`): iterate the dict in
insertion order and return the first key whose value equals `i`; if none
matches, return the sentinel string `"Unknown Operation ID %d" % i`.  The
source compares with `int(operations[key]) is int(i)`, which coincides with
integer equality because the table values all lie in CPython's small-integer
cache and distinct integers are never identical. -/
def getOperationNameForId (i : Int) : String :=
  match operationsTable.find? (fun kv => (kv.2 : Int) == i) with
  | some kv => kv.1
  | none => "Unknown Operation ID " ++ toString i

/-! ### Operations `Vote` and `Comment` (`transactions.py`) and the
`Operation` wrapper -/

structure VoteData where
  voter : String
  author : String
  permlink : String
  weight : Int
  deriving DecidableEq, Repr

/-- `Vote.__bytes__` via `SteemObject.__bytes__`: concatenation of the
ordered field encodings. -/
def voteBytes (v : VoteData) : List Nat :=
  strBytes v.voter ++ strBytes v.author ++ strBytes v.permlink ++ i16LE v.weight

structure CommentData where
  parent_author : String
  parent_permlink : String
  author : String
  permlink : String
  title : String
  body : String
  json_metadata : String
  deriving DecidableEq, Repr

/-- `Comment.__bytes__` via `SteemObject.__bytes__`. -/
def commentBytes (c : CommentData) : List Nat :=
  strBytes c.parent_author ++ strBytes c.parent_permlink ++ strBytes c.author ++
  strBytes c.permlink ++ strBytes c.title ++ strBytes c.body ++
  strBytes c.json_metadata

/-- The operation variants implemented as classes in `transactions.py`
(`Vote` and `Comment` are the only operation classes defined there). -/
inductive OpVariant where
  | vote : VoteData → OpVariant
  | comment : CommentData → OpVariant
  deriving DecidableEq

/-- `Operation.opId`: `operations[type(self.op).__name__.lower()]`. -/
def opVariantId : OpVariant → Nat
  | .vote _ => 0
  | .comment _ => 1

def opVariantPayload : OpVariant → List Nat
  | .vote v => voteBytes v
  | .comment c => commentBytes c

/-- `Operation.__bytes__`: `bytes(Id(self.opId)) + bytes(self.op)`
(`Id` encodes as `Varint32`). -/
def operationBytes (op : OpVariant) : List Nat :=
  varint (opVariantId op) ++ opVariantPayload op

/-! ### Construction of an `Operation` from a `[name, fields]` pair
(`transactions.py`, `Operation.__init__`) -/

/-- A Python value appearing in an operation's field dict. -/
inductive PyValue where
  | str : String → PyValue
  | int : Int → PyValue
  deriving DecidableEq

abbrev FieldMap := List (String × PyValue)

def FieldMap.find (m : FieldMap) (k : String) : Option PyValue :=
  (m.find? (fun kv => kv.1 == k)).map (·.2)

inductive OpErr where
  | keyError
  | notImplementedError
  deriving DecidableEq, Repr

/-- `name[0].upper() + name[1:]`. -/
def capitalizeName (s : String) : String :=
  match s.data with
  | [] => ""
  | c :: rest => String.mk (c.toUpper :: rest)

/-- `Vote(kwargs)`: every field is looked up in the dict (a missing key
raises `KeyError`). -/
def voteFromFields (m : FieldMap) : Except OpErr OpVariant :=
  match m.find "voter", m.find "author", m.find "permlink", m.find "weight" with
  | some (.str vo), some (.str au), some (.str pl), some (.int w) =>
      .ok (.vote ⟨vo, au, pl, w⟩)
  | _, _, _, _ => .error .keyError

/-- `Comment(kwargs)` analogously. -/
def commentFromFields (m : FieldMap) : Except OpErr OpVariant :=
  match m.find "parent_author", m.find "parent_permlink", m.find "author",
        m.find "permlink", m.find "title", m.find "body",
        m.find "json_metadata" with
  | some (.str pa), some (.str pp), some (.str au), some (.str pl),
    some (.str ti), some (.str bo), some (.str jm) =>
      .ok (.comment ⟨pa, pp, au, pl, ti, bo, jm⟩)
  | _, _, _, _, _, _, _ => .error .keyError

/-- `eval(self.name)` resolved in the module scope of `transactions.py`:
only the class names `Vote` and `Comment` denote operation classes there; any
other capitalized table name is unbound, so `eval` raises and the constructor
turns that into `NotImplementedError`.  (Names outside the operations table
never reach `eval`, because the `operations[op[0]]` lookup raises `KeyError`
first.) -/
def evalKlass (s : String) : Option (FieldMap → Except OpErr OpVariant) :=
  if s = "Vote" then some voteFromFields
  else if s = "Comment" then some commentFromFields
  else none

/-- `Operation.__init__` on a `[name, fields]` list: look up the opcode,
resolve the capitalized class name via `eval`, and construct the variant. -/
def operationFromList (name : String) (fields : FieldMap) :
    Except OpErr (Nat × OpVariant) :=
  match operationsTable.find? (fun kv => kv.1 == name) with
  | none => .error .keyError
  | some kv =>
      match evalKlass (capitalizeName name) with
      | none => .error .notImplementedError
      | some ctor => (ctor fields).map (fun op => (kv.2, op))

/-! ### `Signed_Transaction` (`transactions.py`) -/

/-- The state `Signed_Transaction.__init__` stores: note that the
`OrderedDict` holds `ref_block_num`, `ref_block_prefix`, `expiration`,
`operations` and `signatures` — the `extensions` entry prepared in `kwargs`
is *not* placed in the dict and therefore never serialized.  Signatures are
raw 65-byte strings (`Signature.__bytes__` yields them unframed). -/
structure TxData where
  refBlockNum : Nat
  refBlockPref : Nat
  expiration : String
  operations : List OpVariant
  signatures : List (List Nat)
  deriving DecidableEq

/-- `bytes(Signed_Transaction)` via `SteemObject.__bytes__`: the ordered
concatenation of the stored field encodings (fails only when the expiration
string does not parse, where `strptime` would raise). -/
def txSerialized (t : TxData) : Option (List Nat) :=
  (pointInTimeBytes t.expiration).map fun e =>
    u16LE t.refBlockNum ++ u32LE t.refBlockPref ++ e ++
    arrayBytes (t.operations.map operationBytes) ++ arrayBytes t.signatures

/-- The serialization layout the specification asserts (claim C2): reference
fields, expiration, operations, then the (always empty) extensions `Set`,
with no signature data. -/
def txSerializedSpec (t : TxData) : Option (List Nat) :=
  (pointInTimeBytes t.expiration).map fun e =>
    u16LE t.refBlockNum ++ u32LE t.refBlockPref ++ e ++
    arrayBytes (t.operations.map operationBytes) ++
    arrayBytes ([] : List (List Nat))

/-! ### The known test vector (`steembase/test/test_transactions.py`,
`Testcases.test_Vote`) -/

def voteTestOp : OpVariant :=
  .vote ⟨"foobara", "foobarc", "foobard", 1000⟩

def voteTestTx : TxData :=
  { refBlockNum := 34294
    refBlockPref := 3707022213
    expiration := "2016-04-06T08:29:27"
    operations := [voteTestOp]
    signatures := [] }

/-- The hex prefix the specification pins for the test vector. -/
def voteVectorHex : String :=
  "f68585abf4dce7c80457010007666f6f6261726107666f6f6261726307666f6f62617264e803"

/-! ### `Amount` (`steembase/operations.py`) -/

/-- The `asset_precision` symbol table. -/
def asset_precision : List (String × Nat) :=
  [("STEEM", 3), ("VESTS", 6), ("SBD", 3), ("GOLOS", 3), ("GESTS", 6),
   ("GBG", 3)]

def digitsToNat : List Char → Option Nat
  | [] => some 0
  | c :: rest => do
      let d ← digitVal c
      let r ← digitsToNat rest
      pure (r + d * 10 ^ rest.length)

/-- Exact value of a plain decimal literal as `(numerator, scale)` with
value `numerator / 10^scale`.  This is the exact-rational reading of the
`float(...)` conversion in `Amount.__init__`, restricted to plain decimal
notation (no exponent); such literals of the precisions the library uses are
handled exactly. -/
def parseDecimal (s : String) : Option (Int × Nat) :=
  let core : List Char → Option (Nat × Nat) := fun l =>
    match l.splitOn '.' with
    | [ip] => if ip.isEmpty then none else
        (digitsToNat ip).map (fun v => (v, 0))
    | [ip, fp] =>
        if ip.isEmpty ∧ fp.isEmpty then none else do
          let iv ← digitsToNat ip
          let fv ← digitsToNat fp
          pure (iv * 10 ^ fp.length + fv, fp.length)
    | _ => none
  match s.data with
  | '-' :: rest => (core rest).map (fun p => (-(p.1 : Int), p.2))
  | '+' :: rest => (core rest).map (fun p => ((p.1 : Int), p.2))
  | rest => (core rest).map (fun p => ((p.1 : Int), p.2))

/-- Round-to-nearest, ties-to-even, of `n / d` (the behavior of Python's
`round` on the exactly represented values at issue). -/
def roundHalfEven (n : Int) (d : Int) : Int :=
  let q := Int.fdiv n d
  let r := n - d * q
  if 2 * r < d then q
  else if 2 * r > d then q + 1
  else if q % 2 = 0 then q else q + 1

/-- The state `Amount.__init__` keeps: the parsed decimal (kept exact here),
the symbol, and the precision from the symbol table. -/
structure AmountData where
  num : Int
  scale : Nat
  asset : String
  precision : Nat
  deriving DecidableEq

/-- The ASCII whitespace `str.strip()` removes (the unicode spaces Python
also strips never occur in amount strings). -/
def isPySpace (c : Char) : Bool :=
  c = ' ' ∨ c = '\t' ∨ c = '\n' ∨ c = '\r' ∨ c.toNat = 11 ∨ c.toNat = 12

/-- `str.strip()` on the character list. -/
def pyStripChars (l : List Char) : List Char :=
  ((l.dropWhile isPySpace).reverse.dropWhile isPySpace).reverse

/-- `str.split(" ")`: split at every single space, preserving empty parts. -/
def splitOnSpace : List Char → List (List Char)
  | [] => [[]]
  | c :: rest =>
      match splitOnSpace rest with
      | h :: t => if c = ' ' then [] :: h :: t else (c :: h) :: t
      | [] => [[c]]

/-- `Amount.__init__`: `d.strip().split(" ")` must produce exactly an amount
and a symbol; the amount is parsed as a decimal number and the precision
comes from `asset_precision` (`"Asset unknown"` otherwise). -/
def amountFromString (d : String) : Option AmountData :=
  match splitOnSpace (pyStripChars d.data) with
  | [am, sym] => do
      let pd ← parseDecimal (String.mk am)
      let p ← (asset_precision.find? (fun kv => kv.1 == String.mk sym)).map (·.2)
      pure ⟨pd.1, pd.2, String.mk sym, p⟩
  | _ => none

/-- `Amount.__bytes__`:
`struct.pack("<q", round(amount * 10**precision)) + struct.pack("<b",
precision) + bytes(symbol + "\x00" * (7 - len(symbol)), "ascii")`.
`struct.pack` raises when the scaled amount leaves the signed 64-bit range
(or the precision the signed 8-bit range), and `bytes(..., "ascii")` raises
on non-ASCII symbols, hence the guards. -/
def amountBytes (a : AmountData) : Option (List Nat) :=
  if -(2 ^ 63) ≤ roundHalfEven (a.num * 10 ^ a.precision) (10 ^ a.scale) ∧
      roundHalfEven (a.num * 10 ^ a.precision) (10 ^ a.scale) < 2 ^ 63 ∧
      a.precision ≤ 127 ∧ a.asset.data.all (fun c => c.toNat < 128) then
    some (i64LE (roundHalfEven (a.num * 10 ^ a.precision) (10 ^ a.scale)) ++
      [a.precision] ++
      (a.asset.data.map Char.toNat ++ List.replicate (7 - a.asset.length) 0))
  else none

/-- `'{:.{}f}'.format(value, precision)`: fixed-point display with exactly
`precision` decimals (none when the precision is zero). -/
def formatFixed (num : Int) (scale precision : Nat) : String :=
  let scaled := roundHalfEven (num * 10 ^ precision) (10 ^ scale)
  let sign := if scaled < 0 then "-" else ""
  let m := scaled.natAbs
  let whole := m / 10 ^ precision
  let frac := m % 10 ^ precision
  if precision = 0 then sign ++ toString whole
  else
    let fs := toString frac
    sign ++ toString whole ++ "." ++
      String.mk (List.replicate (precision - fs.length) '0') ++ fs

/-- `Amount.__str__`: `'{:.{}f} {}'.format(self.amount, self.precision,
self.asset)`. -/
def amountStr (a : AmountData) : String :=
  formatFixed a.num a.scale a.precision ++ " " ++ a.asset

/-! ### `Custom_json` (`steembase/operations.py`) -/

/-- A Python value passed as the `json` keyword argument. -/
inductive PyJson where
  | str : String → PyJson
  | dict : List (String × String) → PyJson
  | list : List String → PyJson
  deriving DecidableEq

/-- Python truthiness of the `json` argument. -/
def PyJson.truthy : PyJson → Bool
  | .str s => !s.isEmpty
  | .dict l => !l.isEmpty
  | .list l => !l.isEmpty

/-- `json.dumps` escaping of one character (default `ensure_ascii=True`). -/
def jsonEscapeChar (c : Char) : String :=
  if c = '"' then "\\\""
  else if c = '\\' then "\\\\"
  else if c = '\n' then "\\n"
  else if c = '\t' then "\\t"
  else if c = '\r' then "\\r"
  else if c.toNat = 8 then "\\b"
  else if c.toNat = 12 then "\\f"
  else if c.toNat < 32 ∨ c.toNat ≥ 127 then
    if c.toNat < 65536 then
      "\\u" ++ String.mk ((Nat.toDigits 16 c.toNat).leftpad 4 '0')
    else
      let v := c.toNat - 65536
      "\\u" ++ String.mk ((Nat.toDigits 16 (55296 + v / 1024)).leftpad 4 '0') ++
      "\\u" ++ String.mk ((Nat.toDigits 16 (56320 + v % 1024)).leftpad 4 '0')
  else String.singleton c

def jsonQuote (s : String) : String :=
  "\"" ++ String.join (s.data.map jsonEscapeChar) ++ "\""

/-- `json.dumps` on the shapes of values the library passes. -/
def pyJsonDumps : PyJson → String
  | .str s => jsonQuote s
  | .dict l =>
      "\x7b" ++
      String.intercalate ", " (l.map (fun kv => jsonQuote kv.1 ++ ": " ++ jsonQuote kv.2)) ++
      "\x7d"
  | .list l => "[" ++ String.intercalate ", " (l.map jsonQuote) ++ "]"

structure CustomJsonInput where
  required_auths : List String
  required_posting_auths : List String
  id : String
  /-- `none` models the `"json"` key being absent from `kwargs`. -/
  json : Option PyJson
  deriving DecidableEq

inductive CJErr where
  /-- `Exception("'id' too long")`. -/
  | idTooLong
  /-- `UnboundLocalError`: the local `js` is only assigned when `"json" in
  kwargs and kwargs["json"]` is truthy, yet `String(js)` reads it. -/
  | jsUnbound
  deriving DecidableEq, Repr

structure CustomJsonData where
  required_auths : List String
  required_posting_auths : List String
  id : String
  js : String
  deriving DecidableEq

/-- `Custom_json.__init__`: compute `js` (left unassigned unless the `json`
argument is present and truthy; a dict or list is canonicalized with
`json.dumps`, a string is taken verbatim), then fail if the id exceeds 32
characters, then build the ordered field dict — reading `js` at that point
raises `UnboundLocalError` whenever it was never assigned. -/
def customJsonInit (i : CustomJsonInput) : Except CJErr CustomJsonData :=
  let js : Option String :=
    match i.json with
    | some j =>
        if j.truthy then
          some (match j with
                | .str s => s
                | other => pyJsonDumps other)
        else none
    | none => none
  if 32 < i.id.length then .error .idTooLong
  else
    match js with
    | none => .error .jsUnbound
    | some s => .ok ⟨i.required_auths, i.required_posting_auths, i.id, s⟩

/-- Wire bytes of a constructed `Custom_json` (two `Array`s of `String`s,
then two `String`s, with the §4.1 encoders). -/
def customJsonBytes (d : CustomJsonData) : List Nat :=
  arrayBytes (d.required_auths.map strBytes) ++
  arrayBytes (d.required_posting_auths.map strBytes) ++
  strBytes d.id ++ strBytes d.js

/-! ### SHA-256 (`hashlib.sha256`), the hash the signing engine and the
WIF checksum rely on -/

def w32 (n : Nat) : Nat := n % 4294967296

def rotr32 (k x : Nat) : Nat := w32 ((x >>> k) ||| (x <<< (32 - k)))

def sha256K : List Nat :=
  [1116352408, 1899447441, 3049323471, 3921009573, 961987163, 1508970993,
   2453635748, 2870763221, 3624381080, 310598401, 607225278, 1426881987,
   1925078388, 2162078206, 2614888103, 3248222580, 3835390401, 4022224774,
   264347078, 604807628, 770255983, 1249150122, 1555081692, 1996064986,
   2554220882, 2821834349, 2952996808, 3210313671, 3336571891, 3584528711,
   113926993, 338241895, 666307205, 773529912, 1294757372, 1396182291,
   1695183700, 1986661051, 2177026350, 2456956037, 2730485921, 2820302411,
   3259730800, 3345764771, 3516065817, 3600352804, 4094571909, 275423344,
   430227734, 506948616, 659060556, 883997877, 958139571, 1322822218,
   1537002063, 1747873779, 1955562222, 2024104815, 2227730452, 2361852424,
   2428436474, 2756734187, 3204031479, 3329325298]

def sha256H0 : List Nat :=
  [1779033703, 3144134277, 1013904242, 2773480762,
   1359893119, 2600822924, 528734635, 1541459225]

def bytesToWordsBE : List Nat → List Nat
  | a :: b :: c :: d :: rest =>
      (a * 16777216 + b * 65536 + c * 256 + d) :: bytesToWordsBE rest
  | _ => []

def wordToBytesBE (v : Nat) : List Nat :=
  [(v / 16777216) % 256, (v / 65536) % 256, (v / 256) % 256, v % 256]

def be64 (n : Nat) : List Nat :=
  [(n >>> 56) % 256, (n >>> 48) % 256, (n >>> 40) % 256, (n >>> 32) % 256,
   (n >>> 24) % 256, (n >>> 16) % 256, (n >>> 8) % 256, n % 256]

/-- SHA-256 / RIPEMD-160 length padding (SHA-256 uses a big-endian length). -/
def sha256Pad (msg : List Nat) : List Nat :=
  msg ++ [0x80] ++ List.replicate ((119 - msg.length % 64) % 64) 0 ++
  be64 (8 * msg.length)

def chunksAux (n : Nat) : Nat → List α → List (List α)
  | 0, _ => []
  | _, [] => []
  | fuel + 1, l => l.take n :: chunksAux n fuel (l.drop n)

def chunks (n : Nat) (l : List α) : List (List α) := chunksAux n (l.length + 1) l

/-- Extend the 16 block words to 64 schedule words; the accumulator is kept
reversed so the most recent words are at its head. -/
def sha256ScheduleAux : Nat → List Nat → List Nat
  | 0, revW => revW.reverse
  | fuel + 1, revW =>
      let w2 := revW.getD 1 0
      let w7 := revW.getD 6 0
      let w15 := revW.getD 14 0
      let w16 := revW.getD 15 0
      let s0 := (rotr32 7 w15) ^^^ (rotr32 18 w15) ^^^ (w15 >>> 3)
      let s1 := (rotr32 17 w2) ^^^ (rotr32 19 w2) ^^^ (w2 >>> 10)
      sha256ScheduleAux fuel (w32 (w16 + s0 + w7 + s1) :: revW)

def sha256Round (st : List Nat) (kw : Nat × Nat) : List Nat :=
  match st with
  | [a, b, c, d, e, f, g, h] =>
      let s1 := (rotr32 6 e) ^^^ (rotr32 11 e) ^^^ (rotr32 25 e)
      let ch := (e &&& f) ^^^ ((4294967295 - e) &&& g)
      let t1 := w32 (h + s1 + ch + kw.1 + kw.2)
      let s0 := (rotr32 2 a) ^^^ (rotr32 13 a) ^^^ (rotr32 22 a)
      let mj := (a &&& b) ^^^ (a &&& c) ^^^ (b &&& c)
      let t2 := w32 (s0 + mj)
      [w32 (t1 + t2), a, b, c, w32 (d + t1), e, f, g]
  | other => other

def sha256Compress (h : List Nat) (block : List Nat) : List Nat :=
  let ws := sha256ScheduleAux 48 (bytesToWordsBE block).reverse
  let st := (sha256K.zip ws).foldl sha256Round h
  (h.zip st).map (fun p => w32 (p.1 + p.2))

/-- `hashlib.sha256(msg).digest()` over byte lists. -/
def sha256 (msg : List Nat) : List Nat :=
  (((chunks 64 (sha256Pad msg)).foldl sha256Compress sha256H0).map
    wordToBytesBE).flatten

/-- HMAC-SHA256 (`hmac.new(key, msg, hashlib.sha256).digest()`). -/
def hmacSha256 (key msg : List Nat) : List Nat :=
  let k0 := if key.length > 64 then sha256 key else key
  let k1 := k0 ++ List.replicate (64 - k0.length) 0
  sha256 ((k1.map (fun b => b ^^^ 0x5c)) ++
          sha256 ((k1.map (fun b => b ^^^ 0x36)) ++ msg))

/-! ### RFC 6979 deterministic nonces (`ecdsa.rfc6979.generate_k` with
SHA-256, order and key sizes fixed at 256 bits as for secp256k1) -/

def beToNat (l : List Nat) : Nat := l.foldl (fun a b => a * 256 + b) 0

def natToBEAux : Nat → Nat → List Nat
  | 0, _ => []
  | len + 1, x => natToBEAux len (x / 256) ++ [x % 256]

/-- `number_to_string(num, order)`: 32-byte big-endian form. -/
def natToBE32 (x : Nat) : List Nat := natToBEAux 32 x

/-- secp256k1 group order. -/
def secp256k1n : Nat :=
  115792089237316195423570985008687907852837564279074904382605163141518161494337

/-- secp256k1 field prime. -/
def secp256k1p : Nat :=
  115792089237316195423570985008687907853269984665640564039457584007908834671663

def secpGx : Nat :=
  55066263022277343669578718895168534326250603453777594175500187360389116729240

def secpGy : Nat :=
  32670510020758816978083085130507043184471273380659243275938904335757337482424

def bits2int (data : List Nat) (qlen : Nat) : Nat :=
  let x := beToNat data
  if data.length * 8 > qlen then x >>> (data.length * 8 - qlen) else x

def bits2octets (data : List Nat) : List Nat :=
  let z1 := bits2int data 256
  natToBE32 (if z1 ≥ secp256k1n then z1 - secp256k1n else z1)

def generateKLoop : Nat → List Nat → List Nat → Option Nat
  | 0, _, _ => none
  | fuel + 1, k, v =>
      let v' := hmacSha256 k v
      let secret := bits2int v' 256
      if 1 ≤ secret ∧ secret < secp256k1n then some secret
      else
        let k' := hmacSha256 k (v' ++ [0])
        generateKLoop fuel k' (hmacSha256 k' v')

/-- `ecdsa.rfc6979.generate_k(order, secexp, hashlib.sha256, data)` for the
secp256k1 order (`qlen = 256`, `holen = rolen = 32`, so the inner
accumulation loop runs exactly one HMAC per candidate). -/
def generateK (secexp : Nat) (data : List Nat) : Option Nat :=
  let bx := natToBE32 secexp ++ bits2octets data
  let v0 := List.replicate 32 1
  let k1 := hmacSha256 (List.replicate 32 0) (v0 ++ [0] ++ bx)
  let v1 := hmacSha256 k1 v0
  let k2 := hmacSha256 k1 (v1 ++ [1] ++ bx)
  let v2 := hmacSha256 k2 v1
  generateKLoop 1000 k2 v2

/-! ### secp256k1 arithmetic (the curve math of the `ecdsa` dependency,
written over `Nat` with Jacobian coordinates; the `z = 0` triple is the
point at infinity) -/

def mulp (a b : Nat) : Nat := a * b % secp256k1p

def subp (a b : Nat) : Nat := (a + (secp256k1p - b % secp256k1p)) % secp256k1p

def powModAux : Nat → Nat → Nat → Nat → Nat → Nat
  | 0, _, _, _, acc => acc
  | fuel + 1, b, e, m, acc =>
      if e = 0 then acc
      else powModAux fuel (b * b % m) (e >>> 1) m
        (if e % 2 = 1 then acc * b % m else acc)

def powMod (b e m : Nat) : Nat := powModAux 300 (b % m) e m (1 % m)

def invMod (a m : Nat) : Nat := powMod a (m - 2) m

/-- Jacobian point `(X, Y, Z)`; `Z = 0` encodes the point at infinity. -/
abbrev JPt := Nat × Nat × Nat

def jInf : JPt := (1, 1, 0)

def toJ (P : Nat × Nat) : JPt := (P.1, P.2, 1)

def jDouble (P : JPt) : JPt :=
  let (x, yz) := P
  let (y, z) := yz
  if z = 0 ∨ y = 0 then jInf
  else
    let y2 := mulp y y
    let s := mulp 4 (mulp x y2)
    let m := mulp 3 (mulp x x)
    let x' := subp (mulp m m) (mulp 2 s)
    let y' := subp (mulp m (subp s x')) (mulp 8 (mulp y2 y2))
    (x', y', mulp 2 (mulp y z))

def jAdd (P Q : JPt) : JPt :=
  let (x1, yz1) := P
  let (y1, z1) := yz1
  let (x2, yz2) := Q
  let (y2, z2) := yz2
  if z1 = 0 then Q
  else if z2 = 0 then P
  else
    let z1s := mulp z1 z1
    let z2s := mulp z2 z2
    let u1 := mulp x1 z2s
    let u2 := mulp x2 z1s
    let s1 := mulp y1 (mulp z2 z2s)
    let s2 := mulp y2 (mulp z1 z1s)
    if u1 = u2 then
      (if s1 = s2 then jDouble P else jInf)
    else
      let h := subp u2 u1
      let r := subp s2 s1
      let h2 := mulp h h
      let h3 := mulp h h2
      let x3 := subp (subp (mulp r r) h3) (mulp 2 (mulp u1 h2))
      let y3 := subp (mulp r (subp (mulp u1 h2) x3)) (mulp s1 h3)
      (x3, y3, mulp h (mulp z1 z2))

def jScalarMulAux : Nat → Nat → JPt → JPt → JPt
  | 0, _, _, acc => acc
  | fuel + 1, k, P, acc =>
      let acc' := jDouble acc
      jScalarMulAux fuel k P (if (k >>> fuel) % 2 = 1 then jAdd acc' P else acc')

/-- `k · P` by 256-bit double-and-add. -/
def jScalarMul (k : Nat) (P : JPt) : JPt := jScalarMulAux 256 k P jInf

def jToAffine (P : JPt) : Option (Nat × Nat) :=
  let (x, yz) := P
  let (y, z) := yz
  if z = 0 then none
  else
    let zi := invMod z secp256k1p
    let zi2 := mulp zi zi
    some (mulp x zi2, mulp y (mulp zi zi2))

/-- The signer's public point `secexp · G`
(`sk.get_verifying_key()` / `to_string()` compares the affine pair). -/
def pubkeyPoint (secexp : Nat) : Option (Nat × Nat) :=
  jToAffine (jScalarMul secexp (toJ (secpGx, secpGy)))

/-- `Private_key.sign(h, k)` of the `ecdsa` dependency: `r = (k·G).x mod n`,
`s = k⁻¹ (h + secexp·r) mod n`, failing on `r = 0` or `s = 0`. -/
def ecSign (secexp k h : Nat) : Option (Nat × Nat) :=
  let n := secp256k1n
  let kk := k % n
  match jToAffine (jScalarMul kk (toJ (secpGx, secpGy))) with
  | none => none
  | some P =>
      let r := P.1 % n
      if r = 0 then none
      else
        let s := invMod kk n * ((h + secexp * r % n) % n) % n
        if s = 0 then none else some (r, s)

/-- `Public_key.verifies` of the `ecdsa` dependency
(`VerifyingKey.verify_digest` with the 64-byte string decoding). -/
def ecVerify (pub : Nat × Nat) (e : Nat) (r s : Nat) : Bool :=
  let n := secp256k1n
  if r < 1 ∨ r > n - 1 ∨ s < 1 ∨ s > n - 1 then false
  else
    let c := invMod s n
    let u1 := e * c % n
    let u2 := r * c % n
    match jToAffine (jAdd (jScalarMul u1 (toJ (secpGx, secpGy)))
                          (jScalarMul u2 (toJ pub))) with
    | none => false
    | some xy => xy.1 % n == r

def byteLenAux : Nat → Nat → Nat
  | 0, _ => 1
  | fuel + 1, x => if x < 256 then 1 else 1 + byteLenAux fuel (x / 256)

/-- The length field a DER `INTEGER` of value `x ≥ 0` carries
(`sigder[3]` / `sigder[5 + lenR]` in `Signed_Transaction.sign`): the minimal
big-endian byte length, plus a leading zero byte when the top bit is set. -/
def derIntLen (x : Nat) : Nat :=
  let bl := byteLenAux 40 x
  if (x >>> ((bl - 1) * 8)) ≥ 128 then bl + 1 else bl

/-! ### Public key recovery (`Signed_Transaction.recover_public_key` /
`recoverPubkeyParameter`) -/

/-- `recover_public_key(digest, signature, i)`: reconstruct the candidate
point `R` from `r` (adding the order for `i ≥ 2`), solve the curve equation
by a square root mod `p` (`p ≡ 3 mod 4`), pick the `y` of the parity asked
by `i`, form `Q = r⁻¹(sR − eG)`, and verify the signature against `Q`
(the `Point` constructor asserts the point is on the curve, and the source
calls `verify_digest` before returning). -/
def recover_public_key (digest : List Nat) (r s i : Nat) :
    Option (Nat × Nat) :=
  let p := secp256k1p
  let n := secp256k1n
  let yp := i % 2
  let x := (r + (i / 2) * n) % p
  let alpha := (mulp x (mulp x x) + 7) % p
  let beta := powMod alpha ((p + 1) / 4) p
  let y := if beta % 2 = yp then beta else p - beta
  if mulp y y ≠ alpha then none   -- off-curve: the Point constructor asserts
  else
    let e := beToNat digest
    let sR := jScalarMul s (toJ (x, y))
    let eG := jScalarMul ((n - e % n) % n) (toJ (secpGx, secpGy))
    match jToAffine (jScalarMul (invMod r n) (jAdd sR eG)) with
    | none => none
    | some q => if ecVerify q e r s then some q else none

/-- `recoverPubkeyParameter(digest, signature, pubkey)`: the first
`i ∈ {0,1,2,3}` whose recovered key equals the signer's. -/
def recoverPubkeyParameter (digest : List Nat) (r s : Nat)
    (pub : Nat × Nat) : Option Nat :=
  [0, 1, 2, 3].find? (fun i =>
    match recover_public_key digest r s i with
    | some q => q == pub
    | none => false)

/-! ### WIF decoding and the signing loop (`Signed_Transaction.sign`) -/

def base58Alphabet : List Char :=
  "123456789ABCDEFGHJKLMNPQRSTUVWXYZabcdefghijkmnopqrstuvwxyz".data

def base58CharVal (c : Char) : Option Nat := base58Alphabet.indexOf? c

def base58ToNat : List Char → Option Nat
  | [] => some 0
  | c :: rest => do
      let v ← base58CharVal c
      let r ← base58ToNat rest
      pure (v * 58 ^ rest.length + r)

def natToBytesBEMin : Nat → Nat → List Nat
  | 0, x => [x % 256]
  | fuel + 1, x => if x ≥ 256 then natToBytesBEMin fuel (x / 256) ++ [x % 256]
                   else [x]

/-- Modelled from the spec: `WIF` is "a base58-check encoded private key
string" and public keys are "base58 + checksum + network prefix"
(GLOSSARY, §3) — the graphenebase collaborator that implements the decoding
(`steembase/account.py` and the graphenebase package) is not under `src/`.
Standard base58 decoding: the string read as a base-58 numeral, plus one
zero byte per leading `'1'`. -/
def base58decode (s : String) : Option (List Nat) :=
  (base58ToNat s.data).map fun num =>
    List.replicate (s.data.takeWhile (fun c => c = '1')).length 0 ++
    natToBytesBEMin 64 num

/-- Modelled from the spec: WIF base58-check decoding — strip the 4-byte
double-SHA256 checksum and the version byte, leaving the 32-byte secret
(`bytes(PrivateKey(wif))`). -/
def wifToSecret (wif : String) : Option Nat := do
  let d ← base58decode wif
  if d.length ≥ 5 then
    let payload := d.take (d.length - 4)
    let cks := d.drop (d.length - 4)
    if (sha256 (sha256 payload)).take 4 = cks ∧ payload.length = 33 then
      some (beToNat (payload.drop 1))
    else none
  else none

/-- The module-level `chain_params = {"chain_id": "0" * int(256/4)}` of
`steembase/transactions.py`. -/
def chain_params_chain_id : String :=
  "0000000000000000000000000000000000000000000000000000000000000000"

/-- `b'%x' % cnt`: the lowercase-hex ASCII bytes of the attempt counter. -/
def natToHexAscii (x : Nat) : List Nat := (Nat.toDigits 16 x).map Char.toNat

/-- One pass of the canonical-signature retry loop of
`Signed_Transaction.sign` for a single key: derive the RFC 6979 nonce from
`sha256(digest + b'%x' % cnt)`, sign, accept only when both DER integer
length fields equal 32, else retry with the next counter.  The source loops
without bound; the fuel argument bounds the model (the spec itself asks for
a cap). -/
def signAttempts : Nat → Nat → List Nat → Nat → (Nat × Nat) →
    Option (List Nat)
  | 0, _, _, _, _ => none
  | fuel + 1, cnt, digest, secexp, pub =>
      match generateK secexp (sha256 (digest ++ natToHexAscii cnt)) with
      | none => none
      | some k =>
          match ecSign secexp k (beToNat digest) with
          | none => none
          | some (r, s) =>
              if derIntLen r = 32 ∧ derIntLen s = 32 then
                match recoverPubkeyParameter digest r s pub with
                | some i => some ((i + 4 + 27) :: (natToBE32 r ++ natToBE32 s))
                | none => none
              else signAttempts fuel (cnt + 1) digest secexp pub

/-- The de-duplication of `wifkeys` at the top of `sign` (first-seen order
preserved). -/
def dedupKeys (l : List String) : List String :=
  l.foldl (fun acc w => if acc.contains w then acc else acc ++ [w]) []

/-- The digested message of `sign`:
`unhexlify(self.chainid) + bytes(self)`.  The `chain` parameter of `sign`
is accepted and ignored exactly as in the source, which reads
`chain_params["chain_id"]` regardless of the argument. -/
def signMessage (chain : String) (t : TxData) : Option (List Nat) := do
  let body ← txSerialized t
  let chainBytes ← hexDecode chain_params_chain_id
  pure (chainBytes ++ body)

/-- `Signed_Transaction.sign(wifkeys, chain)`: the list of 65-byte
signatures appended to the transaction, one per distinct WIF key. -/
def signTx (t : TxData) (wifkeys : List String) (chain : String) :
    Option (List (List Nat)) := do
  let msg ← signMessage chain t
  let digest := sha256 msg
  (dedupKeys wifkeys).mapM fun w => do
    let sec ← wifToSecret w
    let pub ← pubkeyPoint sec
    signAttempts 100 1 digest sec pub

/-- The WIF key of the known test vector. -/
def testWif : String := "5KQwrPbwdL6PhXujxW37FSSQZ1JiwsST4cqQzDeyXtP79zkvFD3"

/-- The signature recorded in `test_transactions.py::test_Vote` (the final
130 hex characters of the `compare` constant). -/
def voteVectorSigHex : String :=
  "202e09123f732a438ef6d6138484d7adedfdcf4a4f3d171f7fcafe836efa2a3c8877290bd34c67eded824ac0cc39e33d154d0617f64af936a83c442f62aef08fec"

/-! ### RIPEMD-160, the checksum hash of graphene public-key strings -/

def rotl32 (k x : Nat) : Nat := w32 ((x <<< k) ||| (x >>> (32 - k)))

def bytesToWordsLE : List Nat → List Nat
  | a :: b :: c :: d :: rest =>
      (a + b * 256 + c * 65536 + d * 16777216) :: bytesToWordsLE rest
  | _ => []

def wordToBytesLE (v : Nat) : List Nat :=
  [v % 256, (v / 256) % 256, (v / 65536) % 256, (v / 16777216) % 256]

def le64 (n : Nat) : List Nat := (be64 n).reverse

def ripemdPad (msg : List Nat) : List Nat :=
  msg ++ [0x80] ++ List.replicate ((119 - msg.length % 64) % 64) 0 ++
  le64 (8 * msg.length)

/-- The round functions `f₁ … f₅` selected by `j / 16`. -/
def ripemdF (j x y z : Nat) : Nat :=
  if j < 16 then x ^^^ y ^^^ z
  else if j < 32 then (x &&& y) ||| ((4294967295 - x) &&& z)
  else if j < 48 then (x ||| (4294967295 - y)) ^^^ z
  else if j < 64 then (x &&& z) ||| (y &&& (4294967295 - z))
  else x ^^^ (y ||| (4294967295 - z))

def ripemdKL (j : Nat) : Nat :=
  if j < 16 then 0 else if j < 32 then 1518500249
  else if j < 48 then 1859775393 else if j < 64 then 2400959708
  else 2840853838

def ripemdKR (j : Nat) : Nat :=
  if j < 16 then 1352829926 else if j < 32 then 1548603684
  else if j < 48 then 1836072691 else if j < 64 then 2053994217
  else 0

def ripemdRL : List Nat :=
  [0, 1, 2, 3, 4, 5, 6, 7, 8, 9, 10, 11, 12, 13, 14, 15,
   7, 4, 13, 1, 10, 6, 15, 3, 12, 0, 9, 5, 2, 14, 11, 8,
   3, 10, 14, 4, 9, 15, 8, 1, 2, 7, 0, 6, 13, 11, 5, 12,
   1, 9, 11, 10, 0, 8, 12, 4, 13, 3, 7, 15, 14, 5, 6, 2,
   4, 0, 5, 9, 7, 12, 2, 10, 14, 1, 3, 8, 11, 6, 15, 13]

def ripemdRR : List Nat :=
  [5, 14, 7, 0, 9, 2, 11, 4, 13, 6, 15, 8, 1, 10, 3, 12,
   6, 11, 3, 7, 0, 13, 5, 10, 14, 15, 8, 12, 4, 9, 1, 2,
   15, 5, 1, 3, 7, 14, 6, 9, 11, 8, 12, 2, 10, 0, 4, 13,
   8, 6, 4, 1, 3, 11, 15, 0, 5, 12, 2, 13, 9, 7, 10, 14,
   12, 15, 10, 4, 1, 5, 8, 7, 6, 2, 13, 14, 0, 3, 9, 11]

def ripemdSL : List Nat :=
  [11, 14, 15, 12, 5, 8, 7, 9, 11, 13, 14, 15, 6, 7, 9, 8,
   7, 6, 8, 13, 11, 9, 7, 15, 7, 12, 15, 9, 11, 7, 13, 12,
   11, 13, 6, 7, 14, 9, 13, 15, 14, 8, 13, 6, 5, 12, 7, 5,
   11, 12, 14, 15, 14, 15, 9, 8, 9, 14, 5, 6, 8, 6, 5, 12,
   9, 15, 5, 11, 6, 8, 13, 12, 5, 12, 13, 14, 11, 8, 5, 6]

def ripemdSR : List Nat :=
  [8, 9, 9, 11, 13, 15, 15, 5, 7, 7, 8, 11, 14, 14, 12, 6,
   9, 13, 15, 7, 12, 8, 9, 11, 7, 7, 12, 7, 6, 15, 13, 11,
   9, 7, 15, 11, 8, 6, 6, 14, 12, 13, 5, 14, 13, 13, 7, 5,
   15, 5, 8, 11, 14, 14, 6, 14, 6, 9, 12, 9, 12, 5, 15, 8,
   8, 5, 12, 9, 12, 5, 14, 6, 8, 13, 6, 5, 15, 13, 11, 11]

/-- One line (left or right) of the RIPEMD-160 compression: `j` runs over
`0 … 79` with the line's message order, rotations and constants; the right
line applies the round functions in reverse order (`f₅ … f₁`), selected here
by the first component of each step triple. -/
def ripemdLine (kf : Nat → Nat) (x : List Nat) :
    List ((Nat × Nat) × Nat × Nat) → List Nat → List Nat
  | [], st => st
  | ((j, fj), r, sh) :: rest, st =>
      match st with
      | [a, b, c, d, e] =>
          let t := w32 (rotl32 sh (w32 (a + ripemdF fj b c d + x.getD r 0 + kf j)) + e)
          ripemdLine kf x rest [e, t, b, rotl32 10 c, d]
      | other => other

def ripemdH0 : List Nat :=
  [1732584193, 4023233417, 2562383102, 271733878, 3285377520]

def ripemdCompress (h : List Nat) (block : List Nat) : List Nat :=
  let x := bytesToWordsLE block
  let idx := List.range 80
  let idxL := idx.map (fun j => (j, j))
  let idxR := idx.map (fun j => (j, 79 - j))
  let left := ripemdLine ripemdKL x (idxL.zip (ripemdRL.zip ripemdSL)) h
  let right := ripemdLine ripemdKR x (idxR.zip (ripemdRR.zip ripemdSR)) h
  match h, left, right with
  | [h0, h1, h2, h3, h4], [a1, b1, c1, d1, e1], [a2, b2, c2, d2, e2] =>
      [w32 (h1 + c1 + d2), w32 (h2 + d1 + e2), w32 (h3 + e1 + a2),
       w32 (h4 + a1 + b2), w32 (h0 + b1 + c2)]
  | _, _, _ => h

/-- RIPEMD-160 digest of a byte list. -/
def ripemd160 (msg : List Nat) : List Nat :=
  (((chunks 64 (ripemdPad msg)).foldl ripemdCompress ripemdH0).map
    wordToBytesLE).flatten

/-! ### Public-key strings and `Permission` (`steembase/operations.py`) -/

/-- Modelled from the spec (§3, §4.3): graphenebase's
`PublicKey(pk, prefix="STM")` strips the network prefix, base58-decodes the
remainder, checks the trailing 4-byte RIPEMD-160 checksum
(`gphBase58CheckDecode`), and keeps the raw 33 key bytes; a malformed string
is an error.  `repr()` of the key — the sort key used by `Permission` — is
the lowercase hex of those raw bytes, and `bytes()` is the raw bytes. -/
def publicKeyRawBytes (s : String) : Option (List Nat) := do
  if s.data.take 3 = ['S', 'T', 'M'] then
    let d ← base58decode (String.mk (s.data.drop 3))
    if d.length ≥ 5 then
      let payload := d.take (d.length - 4)
      let cks := d.drop (d.length - 4)
      if (ripemd160 payload).take 4 = cks then some payload else none
    else none
  else none

/-- Insert at the end of the run of elements the comparison keeps before
`a`; inserting the later element after equal earlier ones is what makes the
sort stable. -/
def insertStable (le : α → α → Bool) (a : α) : List α → List α
  | [] => [a]
  | b :: t => if le b a then b :: insertStable le a t else a :: b :: t

/-- Python's `sorted(l, key=...)`: a stable sort.  Stable sorting has a
unique result, so this insertion sort agrees extensionally with the Timsort
of CPython. -/
def pySorted (le : α → α → Bool) (l : List α) : List α :=
  l.foldl (fun acc a => insertStable le a acc) []

/-- Code-point lexicographic `≤` on character lists. -/
def charListLe : List Char → List Char → Bool
  | [], _ => true
  | _ :: _, [] => false
  | a :: as, b :: bs =>
      if a.toNat = b.toNat then charListLe as bs
      else decide (a.toNat < b.toNat)

/-- Python's `str.__le__`: code-point lexicographic comparison, the order
`sorted` uses on the string sort keys. -/
def pyStrLe (a b : String) : Bool := charListLe a.data b.data

structure PermissionInput where
  weight_threshold : Nat
  account_auths : List (String × Nat)
  key_auths : List (String × Nat)
  deriving DecidableEq

/-- The sort key `sorted(kwargs["key_auths"], key=lambda x:
repr(PublicKey(x[0], prefix=prefix)))` computes for one entry (`None` when
`PublicKey` raises). -/
def keyAuthSortKey (e : String × Nat) : Option String :=
  (publicKeyRawBytes e.1).map hexEncode

/-- Left-to-right effectful map over `Option` (the element order CPython's
`sorted(key=...)` uses when computing the decoration keys). -/
def optionMapList (f : α → Option γ) : List α → Option (List γ)
  | [] => some []
  | a :: t => do
      let b ← f a
      let r ← optionMapList f t
      pure (b :: r)

/-- The decoration `sorted` attaches to one `key_auths` entry: the sort key
`repr(PublicKey(x[0], prefix=prefix))`, the raw key bytes (what
`Map`/`PublicKey.__bytes__` later serializes) and the weight. -/
def keyAuthDecorate (e : String × Nat) : Option (String × List Nat × Nat) :=
  (publicKeyRawBytes e.1).map (fun raw => (hexEncode raw, raw, e.2))

/-- `Permission.__init__` followed by `bytes(...)`: sort `key_auths` by the
`repr` of the parsed public key (CPython's `sorted` evaluates the key of
every element first, in input order, so a malformed key is an error), sort
`account_auths` by account name, then encode
`weight_threshold · account_auths map · key_auths map` with the §4.3
varint-count-plus-pairs `Map` layout. -/
def permissionBytes (p : PermissionInput) : Option (List Nat) := do
  let keyed ← optionMapList keyAuthDecorate p.key_auths
  let sortedK := pySorted (fun a b => pyStrLe a.1 b.1) keyed
  let sortedA := pySorted (fun a b => pyStrLe a.1 b.1) p.account_auths
  pure (u32LE p.weight_threshold ++
    arrayBytes (sortedA.map (fun e => strBytes e.1 ++ u16LE e.2)) ++
    arrayBytes (sortedK.map (fun e => e.2.1 ++ u16LE e.2.2)))

/-! ### Helper lemmas: a stable sort's output is determined by the input's
multiset once the sort keys are duplicate-free -/

theorem insertStable_perm (le : α → α → Bool) (a : α) :
    ∀ l : List α, (insertStable le a l).Perm (a :: l) := by
  intro l
  induction l with
  | nil => exact List.Perm.refl _
  | cons b t ih =>
      unfold insertStable
      by_cases h : le b a
      · simp only [h, if_true]
        exact (ih.cons b).trans (List.Perm.swap a b t)
      · simp only [h, if_false]
        exact List.Perm.refl _

theorem pySorted_perm_aux (le : α → α → Bool) :
    ∀ (l acc : List α),
      (l.foldl (fun acc a => insertStable le a acc) acc).Perm (acc ++ l) := by
  intro l
  induction l with
  | nil => intro acc; simp
  | cons a t ih =>
      intro acc
      have h1 := ih (insertStable le a acc)
      have h2 : (insertStable le a acc ++ t).Perm (acc ++ a :: t) := by
        have h3 : (insertStable le a acc).Perm (a :: acc) :=
          insertStable_perm le a acc
        exact (h3.append_right t).trans List.perm_middle.symm
      exact h1.trans h2

theorem pySorted_perm (le : α → α → Bool) (l : List α) :
    (pySorted le l).Perm l := pySorted_perm_aux le l []

theorem charListLe_total : ∀ a b : List Char,
    charListLe a b = true ∨ charListLe b a = true := by
  intro a
  induction a with
  | nil => intro b; left; rfl
  | cons x as ih =>
      intro b
      cases b with
      | nil => right; rfl
      | cons y bs =>
          simp only [charListLe]
          by_cases hxy : x.toNat = y.toNat
          · rw [if_pos hxy, if_pos hxy.symm]
            exact ih bs
          · rw [if_neg hxy, if_neg (fun h => hxy h.symm)]
            rcases Nat.lt_or_ge x.toNat y.toNat with h | h
            · left; exact decide_eq_true h
            · right
              exact decide_eq_true (lt_of_le_of_ne h (fun hh => hxy hh.symm))

theorem charListLe_trans : ∀ a b c : List Char,
    charListLe a b = true → charListLe b c = true →
      charListLe a c = true := by
  intro a
  induction a with
  | nil => intro b c _ _; rfl
  | cons x as ih =>
      intro b c hab hbc
      cases b with
      | nil => simp [charListLe] at hab
      | cons y bs =>
          cases c with
          | nil => simp [charListLe] at hbc
          | cons z cs =>
              simp only [charListLe] at hab hbc ⊢
              by_cases hxy : x.toNat = y.toNat
              · rw [if_pos hxy] at hab
                by_cases hyz : y.toNat = z.toNat
                · rw [if_pos hyz] at hbc
                  rw [if_pos (hxy.trans hyz)]
                  exact ih bs cs hab hbc
                · rw [if_neg hyz] at hbc
                  rw [hxy, if_neg hyz]
                  exact hbc
              · rw [if_neg hxy] at hab
                have hxylt : x.toNat < y.toNat := of_decide_eq_true hab
                by_cases hyz : y.toNat = z.toNat
                · rw [← hyz, if_neg hxy]
                  exact decide_eq_true hxylt
                · rw [if_neg hyz] at hbc
                  have hyzlt : y.toNat < z.toNat := of_decide_eq_true hbc
                  have hxz : x.toNat < z.toNat := hxylt.trans hyzlt
                  rw [if_neg (Nat.ne_of_lt hxz)]
                  exact decide_eq_true hxz

theorem charListLe_antisymm : ∀ a b : List Char,
    charListLe a b = true → charListLe b a = true → a = b := by
  intro a
  induction a with
  | nil =>
      intro b _ hba
      cases b with
      | nil => rfl
      | cons y bs => simp [charListLe] at hba
  | cons x as ih =>
      intro b hab hba
      cases b with
      | nil => simp [charListLe] at hab
      | cons y bs =>
          simp only [charListLe] at hab hba
          by_cases hxy : x.toNat = y.toNat
          · rw [if_pos hxy] at hab
            rw [if_pos hxy.symm] at hba
            have heq : x = y := by
              rw [← Char.ofNat_toNat x, hxy, Char.ofNat_toNat y]
            rw [heq, ih bs hab hba]
          · rw [if_neg hxy] at hab
            rw [if_neg (fun h => hxy h.symm)] at hba
            have h1 := of_decide_eq_true hab
            have h2 := of_decide_eq_true hba
            omega

theorem pyStrLe_total (a b : String) :
    pyStrLe a b = true ∨ pyStrLe b a = true :=
  charListLe_total a.data b.data

theorem pyStrLe_trans {a b c : String} (h1 : pyStrLe a b = true)
    (h2 : pyStrLe b c = true) : pyStrLe a c = true :=
  charListLe_trans a.data b.data c.data h1 h2

theorem pyStrLe_antisymm {a b : String} (h1 : pyStrLe a b = true)
    (h2 : pyStrLe b a = true) : a = b := by
  have h3 := charListLe_antisymm a.data b.data h1 h2
  cases a
  cases b
  exact congrArg String.mk h3

theorem insertStable_pairwise (f : α → String) (a : α) :
    ∀ l : List α, l.Pairwise (fun x y => pyStrLe (f x) (f y) = true) →
      (insertStable (fun x y => pyStrLe (f x) (f y)) a l).Pairwise
        (fun x y => pyStrLe (f x) (f y) = true) := by
  intro l
  induction l with
  | nil => intro _; simp [insertStable]
  | cons b t ih =>
      intro h
      rw [List.pairwise_cons] at h
      obtain ⟨hb, ht⟩ := h
      unfold insertStable
      by_cases hba : pyStrLe (f b) (f a) = true
      · rw [if_pos hba]
        rw [List.pairwise_cons]
        refine ⟨?_, ih ht⟩
        intro x hx
        have hx' : x ∈ a :: t := (insertStable_perm _ a t).mem_iff.mp hx
        rcases List.mem_cons.mp hx' with rfl | hx''
        · exact hba
        · exact hb x hx''
      · have hab : pyStrLe (f a) (f b) = true :=
          (pyStrLe_total (f b) (f a)).resolve_left hba
        rw [if_neg hba]
        rw [List.pairwise_cons]
        refine ⟨?_, List.Pairwise.cons hb ht⟩
        intro x hx
        rcases List.mem_cons.mp hx with rfl | hx'
        · exact hab
        · exact pyStrLe_trans hab (hb x hx')

theorem pySorted_pairwise_aux (f : α → String) :
    ∀ (l acc : List α), acc.Pairwise (fun x y => pyStrLe (f x) (f y) = true) →
      (l.foldl (fun acc a => insertStable (fun x y => pyStrLe (f x) (f y)) a acc)
        acc).Pairwise (fun x y => pyStrLe (f x) (f y) = true) := by
  intro l
  induction l with
  | nil => intro acc h; exact h
  | cons a t ih =>
      intro acc h
      exact ih _ (insertStable_pairwise f a acc h)

theorem pySorted_pairwise (f : α → String) (l : List α) :
    (pySorted (fun x y => pyStrLe (f x) (f y)) l).Pairwise
      (fun x y => pyStrLe (f x) (f y) = true) :=
  pySorted_pairwise_aux f l [] (by simp)

/-- Two sorted lists that are permutations of each other and whose sort keys
are duplicate-free are equal. -/
theorem sorted_nodup_perm_eq (f : α → String) :
    ∀ (l1 l2 : List α), l1.Perm l2 →
      l1.Pairwise (fun x y => pyStrLe (f x) (f y) = true) →
      l2.Pairwise (fun x y => pyStrLe (f x) (f y) = true) →
      (l1.map f).Nodup → l1 = l2 := by
  intro l1
  induction l1 with
  | nil => intro l2 hp _ _ _; exact (hp.nil_eq).symm ▸ rfl
  | cons a t1 ih =>
      intro l2 hp h1 h2 hnd
      match l2 with
      | [] => exact absurd hp.symm.nil_eq (by simp)
      | b :: t2 =>
          rw [List.pairwise_cons] at h1 h2
          have hb1 : b ∈ a :: t1 := hp.symm.subset (List.mem_cons_self b t2)
          have hab : a = b := by
            rcases List.mem_cons.mp hb1 with hba | hbt1
            · exact hba.symm
            · -- `b` sits in the tail of `l1`, so its key equals `f a`,
              -- contradicting key distinctness
              have ha2 : a ∈ b :: t2 := hp.subset (List.mem_cons_self a t1)
              have hfba : pyStrLe (f b) (f a) = true := by
                rcases List.mem_cons.mp ha2 with hba' | hat2
                · rw [hba']
                  exact (pyStrLe_total (f b) (f b)).elim id id
                · exact h2.1 a hat2
              have hfab : pyStrLe (f a) (f b) = true := h1.1 b hbt1
              have hfeq : f a = f b := pyStrLe_antisymm hfab hfba
              rw [List.map_cons, List.nodup_cons] at hnd
              exact absurd (hfeq ▸ List.mem_map_of_mem f hbt1) hnd.1
          subst hab
          have hpt : t1.Perm t2 := hp.cons_inv
          rw [List.map_cons, List.nodup_cons] at hnd
          rw [ih t2 hpt h1.2 h2.2 hnd.2]

theorem pySorted_eq_of_perm (f : α → String) (l1 l2 : List α)
    (hp : l1.Perm l2) (hnd : (l1.map f).Nodup) :
    pySorted (fun x y => pyStrLe (f x) (f y)) l1 =
    pySorted (fun x y => pyStrLe (f x) (f y)) l2 := by
  refine sorted_nodup_perm_eq f _ _ ?_ (pySorted_pairwise f l1)
    (pySorted_pairwise f l2) ?_
  · exact (pySorted_perm _ l1).trans (hp.trans (pySorted_perm _ l2).symm)
  · exact (((pySorted_perm _ l1).map f).nodup_iff).mpr hnd
theorem optionMapList_perm (f : α → Option γ) :
    ∀ {l1 l2 : List α}, l1.Perm l2 → ∀ {r1 : List γ},
      optionMapList f l1 = some r1 →
      ∃ r2, optionMapList f l2 = some r2 ∧ r1.Perm r2 := by
  intro l1 l2 hp
  induction hp with
  | nil => intro r1 h; exact ⟨r1, h, List.Perm.refl _⟩
  | cons x _ ih =>
      intro r1 h
      simp only [optionMapList, Option.pure_def, Option.bind_eq_bind,
        Option.bind_eq_some, Option.some.injEq] at h
      obtain ⟨b, hb, r, hr, rfl⟩ := h
      obtain ⟨r2, hr2, hperm⟩ := ih hr
      refine ⟨b :: r2, ?_, hperm.cons b⟩
      simp only [optionMapList, Option.pure_def, Option.bind_eq_bind,
        Option.bind_eq_some, Option.some.injEq]
      exact ⟨b, hb, r2, hr2, rfl⟩
  | swap x y l =>
      intro r1 h
      simp only [optionMapList, Option.pure_def, Option.bind_eq_bind,
        Option.bind_eq_some, Option.some.injEq] at h
      obtain ⟨by', hby, rest, hrest, rfl⟩ := h
      obtain ⟨bx, hbx, r, hr, rfl⟩ := hrest
      refine ⟨bx :: by' :: r, ?_, List.Perm.swap bx by' r⟩
      simp only [optionMapList, Option.pure_def, Option.bind_eq_bind,
        Option.bind_eq_some, Option.some.injEq]
      exact ⟨bx, hbx, by' :: r, ⟨by', hby, r, hr, rfl⟩, rfl⟩
  | trans _ _ ih1 ih2 =>
      intro r1 h
      obtain ⟨r2, hr2, hp12⟩ := ih1 h
      obtain ⟨r3, hr3, hp23⟩ := ih2 hr2
      exact ⟨r3, hr3, hp12.trans hp23⟩

theorem optionMapList_decorate_keys :
    ∀ {l : List (String × Nat)} {r : List (String × List Nat × Nat)},
      optionMapList keyAuthDecorate l = some r →
      l.map keyAuthSortKey = r.map (fun x => some x.1) := by
  intro l
  induction l with
  | nil =>
      intro r h
      simp only [optionMapList, Option.some.injEq] at h
      subst h; rfl
  | cons a t ih =>
      intro r h
      simp only [optionMapList, Option.pure_def, Option.bind_eq_bind,
        Option.bind_eq_some, Option.some.injEq] at h
      obtain ⟨b, hb, rest, hrest, rfl⟩ := h
      simp only [List.map_cons, ih hrest, List.cons.injEq, and_true]
      unfold keyAuthDecorate at hb
      unfold keyAuthSortKey
      cases hpk : publicKeyRawBytes a.1 with
      | none => rw [hpk] at hb; exact absurd hb (by simp)
      | some raw =>
          rw [hpk] at hb
          have hb' : (hexEncode raw, raw, a.2) = b := by simpa using hb
          subst hb'
          rfl

theorem nodup_of_map_some {l : List γ} {g : γ → β}
    (h : (l.map (fun x => some (g x))).Nodup) : (l.map g).Nodup := by
  have h2 : (l.map (fun x => some (g x))) = (l.map g).map some := by
    simp [List.map_map]
  rw [h2] at h
  exact h.of_map some

/-! ### Inputs used by individual claims -/

/-- A transaction carrying one already-attached 65-byte signature (the
`signatures` kwarg of `Signed_Transaction.__init__` accepts hex strings of
existing signatures). -/
def sigTestTx : TxData :=
  { voteTestTx with signatures := [(List.range 65).map (fun i => i + 100)] }

/-- The bytes of the recorded test-vector signature. -/
def voteVectorSigBytes : List Nat := (hexDecode voteVectorSigHex).getD []

def dupAuthKey : String :=
  "STM5jYVokmZHdEpwo5oCG3ES2Ca4VYzy6tM8pWWkGdgVnwo2mFLFq"

def secondAuthKey : String :=
  "STM6zLNtyFVToBsBZDsgMhgjpwysYVbsQD6YhP3kRkQhANUB4w7Qp"

def cj32Input : CustomJsonInput :=
  ⟨["alice"], [], String.mk (List.replicate 32 'a'), some (.str "\x7b\x7d")⟩

/-- The error type §4.4 of the specification prescribes for an unknown
operation tag. -/
inductive UnknownOperationError where
  | unknownOperation
  deriving DecidableEq, Repr

/-- Modelled from the spec: "`decode(bytes) -> (name, field_map)` reads the
tag varint, maps it back to a name via the same table … unknown tag →
UnknownOperationError" (§4.4) — the claim-side reading of the id-to-name
mapping, to be compared with `getOperationNameForId` from the source. -/
def getOperationNameForIdSpec (i : Int) :
    Except UnknownOperationError String :=
  match operationsTable.find? (fun kv => (kv.2 : Int) == i) with
  | some kv => .ok kv.1
  | none => .error .unknownOperation

def voteSampleFields : FieldMap :=
  [("voter", .str "foobara"), ("author", .str "foobarc"),
   ("permlink", .str "foobard"), ("weight", .int 1000)]

def commentSampleFields : FieldMap :=
  [("parent_author", .str "a"), ("parent_permlink", .str "b"),
   ("author", .str "c"), ("permlink", .str "d"), ("title", .str "e"),
   ("body", .str "f"), ("json_metadata", .str "")]

/-! ### The claims -/

/-- Claim C1 counterexample: the claim's parenthetical — that the serialized
*signed* transaction, excluding its trailing 130 hex characters of
signature, equals the pinned prefix — is false at the claim's own fixed
input.  `sign` attaches exactly the recorded 65-byte signature, the signed
serialization is `(prefix ++ "01") ++ <130 signature hex chars>` (the `"01"`
is the signature-array count byte), so the truncation leaves
`prefix ++ "01"`, not the prefix. -/
theorem vote_vector_signed_cex :
    signTx voteTestTx [testWif] "STEEM" = some [voteVectorSigBytes] ∧
    (txSerialized { voteTestTx with signatures := [voteVectorSigBytes] }).map
        hexEncode = some ((voteVectorHex ++ "01") ++ voteVectorSigHex) ∧
    voteVectorSigHex.length = 130 ∧
    voteVectorHex ++ "01" ≠ voteVectorHex :=
  ⟨by rfl, by rfl, by rfl, by decide⟩

/-- Claim C1 (amended): for the fixed inputs `ref_block_num = 34294`,
`ref_block_prefix = 3707022213`, `expiration = "2016-04-06T08:29:27"` and a
single Vote operation `{voter: "foobara", author: "foobarc", permlink:
"foobard", weight: 1000}`, the hex encoding of the serialized unsigned
transaction has the prefix
`f68585abf4dce7c80457010007666f6f6261726107666f6f6261726307666f6f62617264e803`
— its full value is that prefix followed by `"00"`, the count byte of the
empty signatures array — and the serialized signed transaction, excluding
its trailing 130 hex characters of signature, equals the prefix followed by
`"01"`, the signature-count byte (not the bare prefix). -/
theorem vote_vector_serialization :
    (∃ rest, (txSerialized voteTestTx).map hexEncode =
      some (voteVectorHex ++ rest)) ∧
    (txSerialized voteTestTx).map hexEncode = some (voteVectorHex ++ "00") ∧
    (∃ rest2, (txSerialized
        { voteTestTx with signatures := [voteVectorSigBytes] }).map hexEncode =
      some ((voteVectorHex ++ "01") ++ rest2) ∧ rest2.length = 130) :=
  ⟨⟨"00", by rfl⟩, by rfl, ⟨voteVectorSigHex, by rfl, by rfl⟩⟩

/-- Claim C2 counterexample: for a transaction that carries a signature, the
serialized byte form is not the concatenation the claim states (the
signatures array, not the extensions set, is serialized), and the bytes
`sign` would digest contain the signature: the 65 signature bytes are the
final segment of the digested message. -/
theorem tx_layout_cex :
    txSerialized sigTestTx ≠ txSerializedSpec sigTestTx ∧
    (∃ m, signMessage "STEEM" sigTestTx = some m ∧
      m.drop (m.length - 65) = (List.range 65).map (fun i => i + 100)) := by
  refine ⟨by decide, ⟨(signMessage "STEEM" sigTestTx).getD [], by rfl, by decide⟩⟩

/-- Claim C2 (amended): the serialized byte form is `ref_block_num` (LE
uint16) · `ref_block_prefix` (LE uint32) · `expiration` (PointInTime) ·
operations array · **signatures array** — the extensions set is dropped from
the stored field dict.  For a transaction whose signatures list is empty
(every freshly built unsigned transaction), this coincides byte-for-byte
with the claimed layout ending in the empty extensions set, and the digested
message is then the 32 chain-id bytes followed by exactly that layout, so no
signature data is hashed in that case. -/
theorem tx_layout_amended (t : TxData) (h : t.signatures = []) :
    txSerialized t = txSerializedSpec t ∧
    ∀ c, signMessage c t =
      (txSerializedSpec t).map (fun b => List.replicate 32 0 ++ b) := by
  have h1 : txSerialized t = txSerializedSpec t := by
    unfold txSerialized txSerializedSpec
    rw [h]
  refine ⟨h1, ?_⟩
  intro c
  have hcz : hexDecode chain_params_chain_id = some (List.replicate 32 0) := by
    decide
  unfold signMessage
  rw [h1]
  cases hts : txSerializedSpec t with
  | none => simp
  | some b => simp [hcz]

/-- Witness for the amended C2 theorem at the test-vector transaction. -/
theorem tx_layout_witness :
    voteTestTx.signatures = [] ∧
    txSerialized voteTestTx = txSerializedSpec voteTestTx :=
  ⟨rfl, (tx_layout_amended voteTestTx rfl).1⟩

/-- Claim C3 counterexample: `sign` ignores the chain identifier it is
passed; two different chain arguments yield the same digested message and
the same signatures, not different ones. -/
theorem chain_arg_cex :
    ("STEEM" : String) ≠ "GOLOS" ∧
    signTx voteTestTx [testWif] "STEEM" = signTx voteTestTx [testWif] "GOLOS" ∧
    signMessage "STEEM" voteTestTx = signMessage "GOLOS" voteTestTx :=
  ⟨by decide, rfl, rfl⟩

/-- Claim C3 (amended): the chain identifier passed to `sign()` does *not*
determine the digested message: `sign` reads `chain_params["chain_id"]`
(the fixed all-zero hex string) regardless of its argument, so any two chain
arguments give identical signatures, and the 32-byte prefix of the digested
message is always the 32 zero bytes. -/
theorem chain_arg_amended (c1 c2 : String) (t : TxData) (keys : List String) :
    signTx t keys c1 = signTx t keys c2 ∧
    signMessage c1 t = signMessage c2 t ∧
    ∀ m, signMessage c1 t = some m → m.take 32 = List.replicate 32 0 := by
  refine ⟨rfl, rfl, ?_⟩
  intro m hm
  have hcz : hexDecode chain_params_chain_id = some (List.replicate 32 0) := by
    decide
  unfold signMessage at hm
  cases hts : txSerialized t with
  | none => rw [hts] at hm; simp at hm
  | some body =>
      rw [hts] at hm
      simp only [hcz, Option.pure_def, Option.bind_eq_bind, Option.some_bind,
        Option.some.injEq] at hm
      subst hm
      exact List.take_left' (by simp)

/-- Witness for the amended C3 theorem at the test vector. -/
theorem chain_arg_witness :
    signTx voteTestTx [testWif] "STEEM" = signTx voteTestTx [testWif] "TEST" ∧
    (List.replicate 32 0 ++ (txSerialized voteTestTx).getD []).take 32 =
      List.replicate 32 0 :=
  ⟨(chain_arg_amended "STEEM" "TEST" voteTestTx [testWif]).1,
   (chain_arg_amended "STEEM" "TEST" voteTestTx [testWif]).2.2 _ (by rfl)⟩

/-- Claim C4: signing is deterministic — `sign` is a pure function of the
transaction, key list and chain argument (every nonce comes from the
RFC 6979 derivation embedded in `signAttempts`/`generateK`, no randomness
appears anywhere in the model), so repeated invocations agree; moreover on
the known test vector the model reproduces, to the byte, the 65-byte
signature recorded in the repository's own test suite. -/
theorem sign_deterministic :
    (∀ (t : TxData) (keys : List String) (c : String),
        signTx t keys c = signTx t keys c) ∧
    signTx voteTestTx [testWif] "STEEM" = some [voteVectorSigBytes] ∧
    hexEncode voteVectorSigBytes = voteVectorSigHex ∧
    voteVectorSigBytes.length = 65 :=
  ⟨fun _ _ _ => rfl, by rfl, by rfl, by rfl⟩

/-- The encodings of the duplicate-key permission in its two input orders
(weights `.. 01 00 .. 02 00` against `.. 02 00 .. 01 00`). -/
def permDupBytes1 : List Nat := (hexDecode
  "010000000002026f6231b8ed1c5e964b42967759757f8bb879d68e7b09d9ea6eedec21de6fa4c40100026f6231b8ed1c5e964b42967759757f8bb879d68e7b09d9ea6eedec21de6fa4c40200").getD []

def permDupBytes2 : List Nat := (hexDecode
  "010000000002026f6231b8ed1c5e964b42967759757f8bb879d68e7b09d9ea6eedec21de6fa4c40200026f6231b8ed1c5e964b42967759757f8bb879d68e7b09d9ea6eedec21de6fa4c40100").getD []

/-- Claim C5 counterexample: two orderings of the *same* `key_auths` list
that repeat one public key with different weights encode differently —
the stable sort keeps equal-keyed entries in input order, so full
input-order invariance fails on duplicate keys. -/
theorem permission_order_cex :
    [(dupAuthKey, 1), (dupAuthKey, 2)].Perm [(dupAuthKey, 2), (dupAuthKey, 1)] ∧
    permissionBytes ⟨1, [], [(dupAuthKey, 1), (dupAuthKey, 2)]⟩ =
      some permDupBytes1 ∧
    permissionBytes ⟨1, [], [(dupAuthKey, 2), (dupAuthKey, 1)]⟩ =
      some permDupBytes2 ∧
    permDupBytes1 ≠ permDupBytes2 :=
  ⟨List.Perm.swap _ _ _, by rfl, by rfl, by decide⟩

/-- Claim C5 (amended): provided the key-auth sort keys (the `repr` of each
parsed public key) are pairwise distinct and the account names are pairwise
distinct, encoding a `Permission` is invariant under any reordering of
`key_auths` and of `account_auths`: both lists are sorted before
serialization (key auths by the canonical string of the key, account auths
by name). -/
theorem permission_order_amended (w : Nat) (a1 a2 k1 k2 : List (String × Nat))
    (hk : k1.Perm k2) (ha : a1.Perm a2)
    (hknd : (k1.map keyAuthSortKey).Nodup)
    (hand : (a1.map Prod.fst).Nodup) :
    permissionBytes ⟨w, a1, k1⟩ = permissionBytes ⟨w, a2, k2⟩ := by
  unfold permissionBytes
  cases h1 : optionMapList keyAuthDecorate k1 with
  | none =>
      cases h2 : optionMapList keyAuthDecorate k2 with
      | none => simp
      | some r2 =>
          obtain ⟨r1, hr1, _⟩ := optionMapList_perm keyAuthDecorate hk.symm h2
          rw [h1] at hr1
          exact absurd hr1 (by simp)
  | some r1 =>
      obtain ⟨r2, h2, hperm⟩ := optionMapList_perm keyAuthDecorate hk h1
      rw [h2]
      have hknd' : (r1.map Prod.fst).Nodup := by
        have he := optionMapList_decorate_keys h1
        rw [he] at hknd
        exact nodup_of_map_some hknd
      have e1 := pySorted_eq_of_perm Prod.fst r1 r2 hperm hknd'
      have e2 := pySorted_eq_of_perm Prod.fst a1 a2 ha hand
      simp only [Option.bind_eq_bind, Option.some_bind]
      rw [e1, e2]

/-- Witness for the amended C5 theorem: two distinct keys and two distinct
account names supplied in both orders. -/
theorem permission_order_witness :
    permissionBytes ⟨1, [("bob", 1), ("alice", 2)],
        [(secondAuthKey, 1), (dupAuthKey, 2)]⟩ =
    permissionBytes ⟨1, [("alice", 2), ("bob", 1)],
        [(dupAuthKey, 2), (secondAuthKey, 1)]⟩ :=
  permission_order_amended 1 _ _ _ _ (List.Perm.swap _ _ _)
    (List.Perm.swap _ _ _) (by decide) (by decide)

/-- Claim C6: `Amount("100.000 STEEM")` serializes to exactly the 16 bytes
`int64 100000 LE · precision 3 · "STEEM" zero-padded to 7`, its display
string is reproduced exactly, and every successfully parsed and serialized
amount with a known symbol occupies exactly 16 bytes. -/
theorem amount_16_bytes (s : String) (a : AmountData) (bs : List Nat)
    (hp : amountFromString s = some a) (hb : amountBytes a = some bs) :
    bs.length = 16 ∧
    (amountFromString "100.000 STEEM").bind amountBytes =
      some [160, 134, 1, 0, 0, 0, 0, 0, 3, 83, 84, 69, 69, 77, 0, 0] ∧
    (amountFromString "100.000 STEEM").map amountStr =
      some "100.000 STEEM" := by
  refine ⟨?_, by rfl, by rfl⟩
  -- the symbol came from the precision table, whose entries have ≤ 5 chars
  have hal : a.asset.length ≤ 7 := by
    unfold amountFromString at hp
    split at hp
    next am sym heq =>
      rcases hpd : parseDecimal (String.mk am) with _ | pd
      · rw [hpd] at hp
        simp at hp
      · rw [hpd] at hp
        rcases hfind : asset_precision.find? (fun kv => kv.1 == String.mk sym)
          with _ | kv
        · rw [hfind] at hp
          simp at hp
        · rw [hfind] at hp
          simp only [Option.pure_def, Option.bind_eq_bind, Option.some_bind,
            Option.map_some', Option.some.injEq] at hp
          have hasset : a.asset = String.mk sym := by rw [← hp]
          have hmem := List.mem_of_find?_eq_some hfind
          have hbeq := List.find?_some hfind
          have hkv1 : kv.1 = String.mk sym := by simpa using hbeq
          rw [hasset, ← hkv1]
          simp only [asset_precision, List.mem_cons, List.not_mem_nil,
            or_false] at hmem
          rcases hmem with rfl | rfl | rfl | rfl | rfl | rfl <;> decide
    next =>
      simp at hp
  unfold amountBytes at hb
  split at hb
  next =>
      simp only [Option.some.injEq] at hb
      subst hb
      simp only [i64LE, List.length_append, List.length_cons, List.length_nil,
        List.length_map, List.length_replicate]
      have hdl : a.asset.data.length = a.asset.length := rfl
      omega
  next =>
      simp at hb

/-- Witness for the C6 theorem at the pinned test vector. -/
theorem amount_16_bytes_witness :
    ([160, 134, 1, 0, 0, 0, 0, 0, 3, 83, 84, 69, 69, 77, 0, 0] :
      List Nat).length = 16 :=
  (amount_16_bytes "100.000 STEEM" ⟨100000, 3, "STEEM", 3⟩ _ (by rfl)
    (by rfl)).1

/-- Claim C7: constructing a `Custom_json` fails with the `'id' too long`
error for every id longer than 32 characters (regardless of the other
fields, since the length check precedes the field dict), and succeeds for an
id of exactly 32 characters with valid remaining fields. -/
theorem custom_json_id_bound (i : CustomJsonInput) (h : 32 < i.id.length) :
    customJsonInit i = .error .idTooLong ∧
    cj32Input.id.length = 32 ∧
    ∃ d, customJsonInit cj32Input = .ok d := by
  refine ⟨?_, by decide, ⟨_, rfl⟩⟩
  unfold customJsonInit
  rw [if_pos h]

/-- Witness for the C7 theorem at a 33-character id. -/
theorem custom_json_id_bound_witness :
    customJsonInit ⟨[], [], String.mk (List.replicate 33 'a'),
      some (.str "x")⟩ = .error .idTooLong :=
  (custom_json_id_bound _ (by decide)).1

/-- Claim C8 counterexample: mapping the unknown id 24 back to a name does
*not* fail with a typed error — `getOperationNameForId` returns the sentinel
string `"Unknown Operation ID 24"` (which is not an operation name), where
the specification's reading demands an `UnknownOperationError`. -/
theorem unknown_opid_cex :
    getOperationNameForId 24 = "Unknown Operation ID 24" ∧
    getOperationNameForIdSpec 24 = .error .unknownOperation ∧
    "Unknown Operation ID 24" ∉ operationsTable.map Prod.fst :=
  ⟨by rfl, by rfl, by decide⟩

/-- Claim C8 (amended): for every integer that is not a value of the
operations table, `getOperationNameForId` returns the sentinel string
`"Unknown Operation ID %d"` — a plain return value rather than a raised
typed error — and that sentinel is never itself an operation name of the
table. -/
theorem unknown_opid_amended (i : Int)
    (h : ∀ kv ∈ operationsTable, (kv.2 : Int) ≠ i) :
    getOperationNameForId i = "Unknown Operation ID " ++ toString i ∧
    ("Unknown Operation ID " ++ toString i) ∉ operationsTable.map Prod.fst := by
  have hf : operationsTable.find? (fun kv => (kv.2 : Int) == i) = none := by
    rw [List.find?_eq_none]
    intro kv hkv
    simpa using h kv hkv
  constructor
  · unfold getOperationNameForId
    rw [hf]
  · intro hmem
    have hU : ∀ name ∈ operationsTable.map Prod.fst,
        name.data.head? ≠ some 'U' := by decide
    have hhead : ∀ t : String,
        ("Unknown Operation ID " ++ t).data.head? = some 'U' := by
      intro t
      cases t with
      | mk l => rfl
    exact hU _ hmem (hhead (toString i))

/-- Witness for the amended C8 theorem at id 24. -/
theorem unknown_opid_witness :
    getOperationNameForId 24 = "Unknown Operation ID " ++ toString (24 : Int) :=
  (unknown_opid_amended 24 (by decide)).1

/-- Claim C9 (implicit): a `Custom_json` whose `json` argument is absent, or
present but empty (empty string, dict or list — i.e. falsy), always fails to
construct: the local `js` is never assigned, so either the id-length check
or the `UnboundLocalError` on `js` aborts before any encodable object
exists. -/
theorem custom_json_empty_json (i : CustomJsonInput)
    (h : ∀ j, i.json = some j → j.truthy = false) :
    ∃ e, customJsonInit i = .error e := by
  have hjs : customJsonInit i =
      (if 32 < i.id.length then .error .idTooLong else .error .jsUnbound) := by
    unfold customJsonInit
    rcases hj : i.json with _ | j
    · rfl
    · simp only [h j hj, Bool.false_eq_true, if_false]
  by_cases hid : 32 < i.id.length
  · exact ⟨.idTooLong, by rw [hjs, if_pos hid]⟩
  · exact ⟨.jsUnbound, by rw [hjs, if_neg hid]⟩

/-- Witness for the C9 theorem at an empty json string with otherwise valid
fields. -/
theorem custom_json_empty_json_witness :
    ∃ e, customJsonInit ⟨["alice"], [], "someid", some (.str "")⟩ =
      .error e :=
  custom_json_empty_json _ (by
    intro j hj
    injection hj with hj'
    subst hj'
    rfl)

/-- Claim C10 (implicit): in `steembase/transactions.py`, constructing an
`Operation` from a `[name, fields]` pair raises `NotImplementedError` for
every name of the 24-entry opcode table other than `"vote"` and
`"comment"` (whose classes are the only operation classes `eval` can
resolve in that module), while those two construct successfully from valid
field dicts. -/
theorem operation_eval_only_vote_comment (name : String) (fields : FieldMap)
    (hmem : name ∈ operationsTable.map Prod.fst)
    (hv : name ≠ "vote") (hc : name ≠ "comment") :
    operationFromList name fields = .error .notImplementedError ∧
    (∃ op, operationFromList "vote" voteSampleFields = .ok op) ∧
    (∃ op, operationFromList "comment" commentSampleFields = .ok op) := by
  refine ⟨?_, ⟨_, rfl⟩, ⟨_, rfl⟩⟩
  fin_cases hmem <;>
    first
      | exact absurd rfl hv
      | exact absurd rfl hc
      | rfl

/-- Witness for the C10 theorem at the table name `"transfer"`. -/
theorem operation_eval_witness :
    operationFromList "transfer" [] = .error .notImplementedError :=
  (operation_eval_only_vote_comment "transfer" [] (by decide) (by decide)
    (by decide)).1

end Piston
